import Mathlib

/-!
Verification of the librinoo memory-buffer, address and socket-layer claims.

The C sources are shallowly embedded as follows.

* `size_t` values are modelled as `Nat` and C `int` results as `Int`.
  Fixed-width wraparound is modelled explicitly wherever it is load-bearing:
  the `unsigned int` accumulator of the base64 encoder (`% 2 ^ 32`) and the
  `size_t` subtraction narrowed to `int` in the tie-break of `rn_buffer_cmp`
  (wrap `% 2 ^ 64`, then the low 32 bits in two's complement).
* A buffer (`rn_buffer_t` in `src/memory/buffer.c`) is modelled by the list
  `data` of its first `size` bytes (so `size = data.length`), together with the
  abstract heap address `ptr` of the underlying region and the allocated
  capacity `msize`.  Bytes between `size` and `msize` are uninitialised in C
  and never observed, so they are not part of the model.
* A buffer class (`rn_buffer_class_t`) is a record of optional policy
  functions.  The C code stores a pointer to the class inside the buffer at
  initialisation time and never changes it afterwards, so the embedding passes
  the class as an explicit argument to each operation.
* Operations that mutate a buffer in place return their C result code paired
  with the final buffer state; the error paths of the C code perform no writes
  before returning, which the theorems below make explicit.
-/

/-- The buffer structure of `src/memory/buffer.c`: an abstract heap address
`ptr`, the contents `data` of its first `size` bytes, and the allocated
capacity `msize`. -/
structure rn_buffer_t where
  ptr : Nat
  data : List Nat
  msize : Nat
deriving DecidableEq

/-- `rn_buffer_size(buffer)` accessor (macro from the memory module header,
returning `buffer->size`). -/
def rn_buffer_size (b : rn_buffer_t) : Nat := b.data.length

/-- `rn_buffer_ptr(buffer)` accessor (macro from the memory module header,
returning `buffer->ptr`). -/
def rn_buffer_ptr (b : rn_buffer_t) : Nat := b.ptr

/-- The pluggable buffer class `rn_buffer_class_t`: initial size, maximal
size, and optional `init`/`growthsize`/`malloc`/`realloc`/`free` policies.
An allocation function returns the new abstract address of the region, or
`none` for an allocation failure. -/
structure rn_buffer_class_t where
  inisize : Nat
  maxsize : Nat
  init : Option (rn_buffer_t → Int)
  growthsize : Option (rn_buffer_t → Nat → Nat)
  malloc : Option (rn_buffer_t → Nat → Option Nat)
  realloc : Option (rn_buffer_t → Nat → Option Nat)
  free : Option (rn_buffer_t → Int)

/-- The `static_class` of `buffer.c`: every field is zero / NULL, so a buffer
using it can never be reallocated. -/
def static_class : rn_buffer_class_t :=
  { inisize := 0
    maxsize := 0
    init := none
    growthsize := none
    malloc := none
    realloc := none
    free := none }

/-- `rn_buffer_static(buffer, ptr, size)`: initialises a static buffer over a
non-owned memory segment holding `size` meaningful bytes. -/
def rn_buffer_static (ptr : Nat) (contents : List Nat) : rn_buffer_t :=
  { ptr := ptr, data := contents, msize := 0 }

/-- `rn_buffer_init(buffer, ptr, msize)`: initialises a buffer over a fixed
(non-extensible) memory segment of capacity `msize`, with `size = 0`. -/
def rn_buffer_init (ptr : Nat) (msize : Nat) : rn_buffer_t :=
  { ptr := ptr, data := [], msize := msize }

/-- `rn_buffer_extend(buffer, size)` from `buffer.c`:
fails (`-1`) if the class provides no `growthsize` or no `realloc`;
computes `msize = growthsize(buffer, size)` and fails if `msize < size`;
fails if `realloc` fails; otherwise installs the new address and capacity.
Every failure path returns before mutating the buffer. -/
def rn_buffer_extend (cls : rn_buffer_class_t) (b : rn_buffer_t) (size : Nat) :
    Int × rn_buffer_t :=
  match cls.growthsize, cls.realloc with
  | some gs, some ra =>
    let msize := gs b size
    if msize < size then (-1, b)
    else
      match ra b msize with
      | none => (-1, b)
      | some p => (0, { b with ptr := p, msize := msize })
  | _, _ => (-1, b)

/-- `rn_buffer_add(buffer, data, size)` from `buffer.c`:
if the new total size exceeds `msize` the buffer is extended first (failure of
the extension propagates as `-1` with no mutation); then the bytes are copied
after the current contents and `size` is returned. -/
def rn_buffer_add (cls : rn_buffer_class_t) (b : rn_buffer_t) (d : List Nat) :
    Int × rn_buffer_t :=
  if d.length + rn_buffer_size b > b.msize then
    let e := rn_buffer_extend cls b (d.length + rn_buffer_size b)
    if e.1 < 0 then (-1, e.2)
    else ((d.length : Int), { e.2 with data := e.2.data ++ d })
  else ((d.length : Int), { b with data := b.data ++ d })

/-- `rn_buffer_addnull(buffer)` from `buffer.c`: appends a `0` byte unless the
buffer already ends with one; returns `0` on success, `-1` when the underlying
`rn_buffer_add` fails. -/
def rn_buffer_addnull (cls : rn_buffer_class_t) (b : rn_buffer_t) :
    Int × rn_buffer_t :=
  if rn_buffer_size b = 0 ∨ b.data.getLast? ≠ some 0 then
    let r := rn_buffer_add cls b [0]
    if r.1 < 0 then (-1, r.2) else (0, r.2)
  else (0, b)

/-- `rn_buffer_erase(buffer, size)` from `buffer.c`: fails when `ptr` is NULL
(modelled as address `0`); erasing `0` or at least `size` bytes empties the
buffer, otherwise the first `size` bytes are removed and the rest moved to the
front.  `msize` is never reduced. -/
def rn_buffer_erase (b : rn_buffer_t) (size : Nat) : Int × rn_buffer_t :=
  if b.ptr = 0 then (-1, b)
  else if size = 0 ∨ size ≥ rn_buffer_size b then (0, { b with data := [] })
  else (0, { b with data := b.data.drop size })

/-! ### Characterisation lemmas for `rn_buffer_extend` and `rn_buffer_add` -/

/-- `rn_buffer_extend` either succeeds with result `0` or fails with `-1`
leaving the buffer exactly as it was. -/
theorem rn_buffer_extend_cases (cls : rn_buffer_class_t) (b : rn_buffer_t)
    (size : Nat) :
    (rn_buffer_extend cls b size).1 = 0 ∨
      rn_buffer_extend cls b size = (-1, b) := by
  unfold rn_buffer_extend
  cases hgs : cls.growthsize with
  | none => cases cls.realloc <;> simp
  | some gs =>
    cases cls.realloc with
    | none => simp
    | some ra =>
      simp only
      split
      · simp
      · cases ra b (gs b size) <;> simp

/-- A successful `rn_buffer_extend` keeps the contents and `size` and ends with
an `msize` of at least the requested size. -/
theorem rn_buffer_extend_succ (cls : rn_buffer_class_t) (b : rn_buffer_t)
    (size : Nat) (h : (rn_buffer_extend cls b size).1 = 0) :
    (rn_buffer_extend cls b size).2.data = b.data ∧
      size ≤ (rn_buffer_extend cls b size).2.msize := by
  unfold rn_buffer_extend at h ⊢
  cases hgs : cls.growthsize with
  | none => rw [hgs] at h; cases cls.realloc <;> simp_all
  | some gs =>
    rw [hgs] at h
    cases hra : cls.realloc with
    | none => rw [hra] at h; simp_all
    | some ra =>
      rw [hra] at h
      simp only at h ⊢
      split at h
      · simp_all
      · cases hx : ra b (gs b size) with
        | none => rw [hx] at h; simp_all
        | some p =>
          rw [hx] at h
          rename_i hlt
          simp [hlt]
          omega

/-- `rn_buffer_add` either succeeds, returning the length of the added data
with the bytes appended to the contents, or fails with `-1` leaving the buffer
untouched. -/
theorem rn_buffer_add_cases (cls : rn_buffer_class_t) (b : rn_buffer_t)
    (d : List Nat) :
    ((rn_buffer_add cls b d).1 = (d.length : Int) ∧
      (rn_buffer_add cls b d).2.data = b.data ++ d) ∨
    ((rn_buffer_add cls b d).1 = -1 ∧ (rn_buffer_add cls b d).2 = b) := by
  unfold rn_buffer_add
  split
  · rcases rn_buffer_extend_cases cls b (d.length + rn_buffer_size b) with h | h
    · left
      have hs := rn_buffer_extend_succ cls b (d.length + rn_buffer_size b) h
      constructor
      · simp [h, show ¬((rn_buffer_extend cls b (d.length + rn_buffer_size b)).1 < 0) by
          rw [h]; decide]
      · simp [show ¬((rn_buffer_extend cls b (d.length + rn_buffer_size b)).1 < 0) by
          rw [h]; decide, hs.1]
    · right
      simp [h]
  · left; simp

/-! ### Buffer comparison (`rn_buffer_cmp`) -/

/-- The C library `memcmp`, applied to two byte sequences of equal length:
returns the (signed) difference of the first differing bytes, `0` when the
sequences coincide. -/
def memcmp : List Nat → List Nat → Int
  | a :: as, b :: bs => if a ≠ b then (a : Int) - (b : Int) else memcmp as bs
  | _, _ => 0

/-- The C tie-break `ret = rn_buffer_size(buffer1) - rn_buffer_size(buffer2)`
of `rn_buffer_cmp` (`buffer.c:336`): the subtraction is performed on `size_t`
operands (64-bit, wrapping, modelled by `% 18446744073709551616 = % 2 ^ 64`)
and the result is assigned to the 32-bit `int` variable `ret` — the narrowing
keeps the low 32 bits, read in two's complement (the behaviour gcc defines
for the out-of-range conversion). -/
def size_t_sub_to_int (s1 s2 : Nat) : Int :=
  if ((s1 : Int) - (s2 : Int)) % 18446744073709551616 % 4294967296
      < 2147483648 then
    ((s1 : Int) - (s2 : Int)) % 18446744073709551616 % 4294967296
  else
    ((s1 : Int) - (s2 : Int)) % 18446744073709551616 % 4294967296 - 4294967296

/-- `rn_buffer_cmp(buffer1, buffer2)` from `buffer.c`: compares the first
`min(size1, size2)` bytes with `memcmp`; on a tie the size difference breaks
it, computed in `size_t` and narrowed to `int` (see `size_t_sub_to_int`). -/
def rn_buffer_cmp (b1 b2 : rn_buffer_t) : Int :=
  if memcmp (b1.data.take (min (rn_buffer_size b1) (rn_buffer_size b2)))
      (b2.data.take (min (rn_buffer_size b1) (rn_buffer_size b2))) = 0 then
    size_t_sub_to_int (rn_buffer_size b1) (rn_buffer_size b2)
  else
    memcmp (b1.data.take (min (rn_buffer_size b1) (rn_buffer_size b2)))
      (b2.data.take (min (rn_buffer_size b1) (rn_buffer_size b2)))

/-- The narrowed size difference vanishes exactly when the two sizes are
congruent modulo `2 ^ 32`. -/
theorem size_t_sub_to_int_eq_zero_iff (s1 s2 : Nat) :
    size_t_sub_to_int s1 s2 = 0 ↔ s1 % 4294967296 = s2 % 4294967296 := by
  unfold size_t_sub_to_int
  split <;> omega

theorem memcmp_eq_zero_iff : ∀ (l1 l2 : List Nat), l1.length = l2.length →
    (memcmp l1 l2 = 0 ↔ l1 = l2) := by
  intro l1
  induction l1 with
  | nil => intro l2 h; cases l2 <;> simp_all [memcmp]
  | cons a as ih =>
    intro l2 h
    cases l2 with
    | nil => simp at h
    | cons b bs =>
      simp only [memcmp]
      by_cases hab : a = b
      · subst hab
        simp only [ne_eq, not_true_eq_false, if_false, if_neg]
        rw [ih bs (by simpa using h)]
        simp
      · have : ((a : Int) - (b : Int)) ≠ 0 := by
          intro hz
          exact hab (by exact_mod_cast sub_eq_zero.mp hz)
        simp [hab, this]

/-! ### Claims C1, C3, C4 -/

/-- Claim C1: for every buffer and every byte string `data` of length `n`, if
`rn_buffer_add(buffer, data, n)` returns `n` then afterwards the buffer's
contents equal its old contents followed by `data` and its size equals
`old size + n`; if it returns `-1` (growth failed), the buffer's contents,
size and `msize` are unchanged. -/
theorem claim_C1_buffer_add (cls : rn_buffer_class_t) (b : rn_buffer_t)
    (d : List Nat) :
    ((rn_buffer_add cls b d).1 = (d.length : Int) →
      (rn_buffer_add cls b d).2.data = b.data ++ d ∧
      rn_buffer_size (rn_buffer_add cls b d).2 = rn_buffer_size b + d.length) ∧
    ((rn_buffer_add cls b d).1 = -1 →
      (rn_buffer_add cls b d).2.data = b.data ∧
      rn_buffer_size (rn_buffer_add cls b d).2 = rn_buffer_size b ∧
      (rn_buffer_add cls b d).2.msize = b.msize) := by
  rcases rn_buffer_add_cases cls b d with ⟨h1, h2⟩ | ⟨h1, h2⟩
  · constructor
    · intro _
      exact ⟨h2, by simp [rn_buffer_size, h2]⟩
    · intro hcontra
      rw [h1] at hcontra
      exact absurd hcontra (by omega)
  · constructor
    · intro hcontra
      rw [h1] at hcontra
      exact absurd hcontra.symm (by omega)
    · intro _
      exact ⟨by rw [h2], by rw [h2], by rw [h2]⟩

theorem claim_C1_buffer_add_witness :
    ((rn_buffer_add static_class ⟨1, [1, 2], 4⟩ [3]).2.data = [1, 2] ++ [3] ∧
      rn_buffer_size (rn_buffer_add static_class ⟨1, [1, 2], 4⟩ [3]).2 = 2 + 1) ∧
    ((rn_buffer_add static_class ⟨1, [1, 2], 2⟩ [3]).2.data = [1, 2] ∧
      rn_buffer_size (rn_buffer_add static_class ⟨1, [1, 2], 2⟩ [3]).2 = 2 ∧
      (rn_buffer_add static_class ⟨1, [1, 2], 2⟩ [3]).2.msize = 2) :=
  ⟨(claim_C1_buffer_add static_class ⟨1, [1, 2], 4⟩ [3]).1 (by decide),
   (claim_C1_buffer_add static_class ⟨1, [1, 2], 2⟩ [3]).2 (by decide)⟩

/-- Claim C3: a buffer initialised with the static class never grows:
`rn_buffer_extend` always fails with `-1` and no mutation, any
`rn_buffer_add` needing more than `msize` bytes fails with no mutation, and
the `ptr` and `msize` fields are invariant under the buffer operations. -/
theorem claim_C3_static_never_grows :
    (∀ b size, rn_buffer_extend static_class b size = (-1, b)) ∧
    (∀ b (d : List Nat), d.length + rn_buffer_size b > b.msize →
      rn_buffer_add static_class b d = (-1, b)) ∧
    (∀ b d, (rn_buffer_add static_class b d).2.ptr = b.ptr ∧
      (rn_buffer_add static_class b d).2.msize = b.msize) ∧
    (∀ b, (rn_buffer_addnull static_class b).2.ptr = b.ptr ∧
      (rn_buffer_addnull static_class b).2.msize = b.msize) ∧
    (∀ b size, (rn_buffer_erase b size).2.ptr = b.ptr ∧
      (rn_buffer_erase b size).2.msize = b.msize) := by
  have hext : ∀ b size, rn_buffer_extend static_class b size = (-1, b) := by
    intro b size
    rfl
  have hadd : ∀ b (d : List Nat), d.length + rn_buffer_size b > b.msize →
      rn_buffer_add static_class b d = (-1, b) := by
    intro b d h
    unfold rn_buffer_add
    rw [if_pos h, hext]
    simp
  have haddinv : ∀ b d, (rn_buffer_add static_class b d).2.ptr = b.ptr ∧
      (rn_buffer_add static_class b d).2.msize = b.msize := by
    intro b d
    unfold rn_buffer_add
    split
    · rw [hext]; exact ⟨rfl, rfl⟩
    · exact ⟨rfl, rfl⟩
  refine ⟨hext, hadd, haddinv, ?_, ?_⟩
  · intro b
    have hinv := haddinv b [0]
    unfold rn_buffer_addnull
    dsimp only
    split
    · split
      · exact hinv
      · exact hinv
    · exact ⟨rfl, rfl⟩
  · intro b size
    unfold rn_buffer_erase
    split
    · exact ⟨rfl, rfl⟩
    · split <;> exact ⟨rfl, rfl⟩

theorem claim_C3_static_never_grows_witness :
    rn_buffer_add static_class ⟨1, [1], 1⟩ [2] = (-1, ⟨1, [1], 1⟩) :=
  claim_C3_static_never_grows.2.1 ⟨1, [1], 1⟩ [2] (by decide)

/-- Claim C4: for a buffer whose class provides `growthsize` and `realloc`, a
successful `rn_buffer_extend(buffer, size)` leaves `msize` equal to the value
returned by the growth policy for the requested size, with `msize ≥ size`;
when the policy returns less than the requested size, `rn_buffer_extend`
returns `-1` and the buffer is unchanged. -/
theorem claim_C4_growthsize (cls : rn_buffer_class_t)
    (gs : rn_buffer_t → Nat → Nat) (ra : rn_buffer_t → Nat → Option Nat)
    (hgs : cls.growthsize = some gs) (hra : cls.realloc = some ra)
    (b : rn_buffer_t) (size : Nat) :
    ((rn_buffer_extend cls b size).1 = 0 →
      (rn_buffer_extend cls b size).2.msize = gs b size ∧
      size ≤ (rn_buffer_extend cls b size).2.msize) ∧
    (gs b size < size → rn_buffer_extend cls b size = (-1, b)) := by
  unfold rn_buffer_extend
  rw [hgs, hra]
  simp only
  split
  · rename_i hlt
    exact ⟨fun h0 => absurd h0 (by simp), fun _ => rfl⟩
  · rename_i hlt
    cases hx : ra b (gs b size) with
    | none => exact ⟨fun h0 => absurd h0 (by simp), fun hc => absurd hc hlt⟩
    | some p =>
      refine ⟨fun _ => ⟨rfl, ?_⟩, fun hc => absurd hc hlt⟩
      dsimp only
      omega

/-- A doubling growth policy together with an always-successful `realloc`,
used to exercise `claim_C4_growthsize`. -/
def grow_test_class : rn_buffer_class_t :=
  { inisize := 8
    maxsize := 1024
    init := none
    growthsize := some (fun b size => max (2 * b.msize) size)
    malloc := none
    realloc := some (fun b _ => some b.ptr)
    free := none }

/-- A growth policy that always returns `0`, used to exercise the failing
branch of `claim_C4_growthsize`. -/
def shrink_test_class : rn_buffer_class_t :=
  { grow_test_class with growthsize := some (fun _ _ => 0) }

theorem claim_C4_growthsize_witness :
    ((rn_buffer_extend grow_test_class ⟨1, [], 3⟩ 5).2.msize =
        max (2 * 3) 5 ∧
      5 ≤ (rn_buffer_extend grow_test_class ⟨1, [], 3⟩ 5).2.msize) ∧
    rn_buffer_extend shrink_test_class ⟨1, [], 3⟩ 5 = (-1, ⟨1, [], 3⟩) :=
  ⟨(claim_C4_growthsize grow_test_class _ _ rfl rfl ⟨1, [], 3⟩ 5).1 (by decide),
   (claim_C4_growthsize shrink_test_class _ _ rfl rfl ⟨1, [], 3⟩ 5).2 (by decide)⟩

/-! ### Claims C9 and C10 -/

/-- Claim C9: `rn_buffer_addnull` is idempotent: after a successful call the
buffer's last byte is a null byte, and a second immediate call returns `0`
without changing the buffer at all. -/
theorem claim_C9_addnull_idempotent (cls : rn_buffer_class_t)
    (b : rn_buffer_t) (h : (rn_buffer_addnull cls b).1 = 0) :
    (rn_buffer_addnull cls b).2.data.getLast? = some 0 ∧
    rn_buffer_addnull cls (rn_buffer_addnull cls b).2 =
      (0, (rn_buffer_addnull cls b).2) := by
  have hsecond : ∀ b1 : rn_buffer_t, b1.data.getLast? = some 0 →
      rn_buffer_addnull cls b1 = (0, b1) := by
    intro b1 hlast
    have hne : b1.data ≠ [] := by
      intro hnil
      rw [hnil] at hlast
      simp at hlast
    unfold rn_buffer_addnull
    rw [if_neg]
    push_neg
    refine ⟨?_, by simp [hlast]⟩
    simpa [rn_buffer_size] using hne
  have hlast : (rn_buffer_addnull cls b).2.data.getLast? = some 0 := by
    by_cases hcond : rn_buffer_size b = 0 ∨ b.data.getLast? ≠ some 0
    · rcases rn_buffer_add_cases cls b [0] with ⟨h1, h2⟩ | ⟨h1, h2⟩
      · have hnneg : ¬ (rn_buffer_add cls b [0]).1 < 0 := by rw [h1]; simp
        unfold rn_buffer_addnull
        rw [if_pos hcond]
        dsimp only
        rw [if_neg hnneg]
        simp [h2]
      · exfalso
        have hneg : (rn_buffer_add cls b [0]).1 < 0 := by rw [h1]; simp
        unfold rn_buffer_addnull at h
        rw [if_pos hcond] at h
        dsimp only at h
        rw [if_pos hneg] at h
        simp at h
    · unfold rn_buffer_addnull
      rw [if_neg hcond]
      push_neg at hcond
      exact hcond.2
  exact ⟨hlast, hsecond _ hlast⟩

theorem claim_C9_addnull_idempotent_witness :
    (rn_buffer_addnull static_class ⟨1, [7], 4⟩).2.data.getLast? = some 0 ∧
    rn_buffer_addnull static_class
        (rn_buffer_addnull static_class ⟨1, [7], 4⟩).2 =
      (0, (rn_buffer_addnull static_class ⟨1, [7], 4⟩).2) :=
  claim_C9_addnull_idempotent static_class ⟨1, [7], 4⟩ (by decide)

/-- Claim C10 is refuted on the code: the tie-break
`ret = size1 - size2` wraps in `size_t` and is narrowed to the 32-bit `int`
`ret`, so two buffers whose sizes differ by exactly `2 ^ 32` and whose common
prefix (here empty) ties under `memcmp` compare as equal: a `2 ^ 32`-byte
buffer against an empty one returns `0` although neither the sizes nor the
contents coincide. -/
theorem claim_C10_counterexample :
    rn_buffer_cmp ⟨1, List.replicate 4294967296 0, 0⟩ ⟨2, [], 0⟩ = 0 ∧
    ¬(rn_buffer_size ⟨1, List.replicate 4294967296 0, 0⟩ =
        rn_buffer_size ⟨2, [], 0⟩ ∧
      (⟨1, List.replicate 4294967296 0, 0⟩ : rn_buffer_t).data =
        (⟨2, [], 0⟩ : rn_buffer_t).data) := by
  have hsize : rn_buffer_size ⟨1, List.replicate 4294967296 0, 0⟩
      = 4294967296 := by
    unfold rn_buffer_size
    rw [List.length_replicate]
  constructor
  · unfold rn_buffer_cmp
    rw [hsize]
    rw [show rn_buffer_size ⟨2, [], 0⟩ = 0 from rfl]
    rw [show min 4294967296 0 = 0 from rfl]
    rw [List.take_zero, List.take_zero]
    rw [show memcmp [] [] = (0 : Int) from rfl, if_pos rfl]
    unfold size_t_sub_to_int
    norm_num
  · rintro ⟨h1, _⟩
    rw [hsize] at h1
    rw [show rn_buffer_size ⟨2, [], 0⟩ = 0 from rfl] at h1
    exact absurd h1 (by decide)

/-- Claim C10 (amended): `rn_buffer_cmp(b1, b2) = 0` exactly when the first
`min(size1, size2)` bytes coincide and the sizes are congruent modulo
`2 ^ 32`; in particular, for buffers whose sizes differ by less than `2 ^ 32`
(all buffers below 4 GiB), it returns `0` exactly when the buffers have equal
size and byte-for-byte identical contents, and `rn_buffer_cmp(b, b) = 0` for
every buffer. -/
theorem claim_C10_cmp_amended (b1 b2 b : rn_buffer_t) :
    (rn_buffer_cmp b1 b2 = 0 ↔
      b1.data.take (min (rn_buffer_size b1) (rn_buffer_size b2)) =
        b2.data.take (min (rn_buffer_size b1) (rn_buffer_size b2)) ∧
      rn_buffer_size b1 % 4294967296 = rn_buffer_size b2 % 4294967296) ∧
    (rn_buffer_size b1 < rn_buffer_size b2 + 4294967296 ∧
      rn_buffer_size b2 < rn_buffer_size b1 + 4294967296 →
      (rn_buffer_cmp b1 b2 = 0 ↔
        rn_buffer_size b1 = rn_buffer_size b2 ∧ b1.data = b2.data)) ∧
    rn_buffer_cmp b b = 0 := by
  have hlen : ∀ x y : rn_buffer_t,
      (x.data.take (min (rn_buffer_size x) (rn_buffer_size y))).length
        = (y.data.take (min (rn_buffer_size x) (rn_buffer_size y))).length := by
    intro x y
    simp [rn_buffer_size]
  have main : ∀ x y : rn_buffer_t, rn_buffer_cmp x y = 0 ↔
      x.data.take (min (rn_buffer_size x) (rn_buffer_size y)) =
        y.data.take (min (rn_buffer_size x) (rn_buffer_size y)) ∧
      rn_buffer_size x % 4294967296 = rn_buffer_size y % 4294967296 := by
    intro x y
    unfold rn_buffer_cmp
    constructor
    · intro h
      split at h
      · rename_i hret
        exact ⟨(memcmp_eq_zero_iff _ _ (hlen x y)).mp hret,
          (size_t_sub_to_int_eq_zero_iff _ _).mp h⟩
      · rename_i hret
        exact absurd h hret
    · rintro ⟨htake, hmod⟩
      rw [if_pos ((memcmp_eq_zero_iff _ _ (hlen x y)).mpr htake)]
      exact (size_t_sub_to_int_eq_zero_iff _ _).mpr hmod
  refine ⟨main b1 b2, ?_, ?_⟩
  · rintro ⟨hd1, hd2⟩
    rw [main b1 b2]
    constructor
    · rintro ⟨htake, hmod⟩
      have hsz : rn_buffer_size b1 = rn_buffer_size b2 := by omega
      refine ⟨hsz, ?_⟩
      have hxy : b1.data.length = b2.data.length := hsz
      have hmin : min (rn_buffer_size b1) (rn_buffer_size b2)
          = b1.data.length := by
        simp only [rn_buffer_size]
        omega
      rw [hmin, List.take_length, hxy, List.take_length] at htake
      exact htake
    · rintro ⟨hsz, hdata⟩
      exact ⟨by rw [hdata], by rw [hsz]⟩
  · rw [main b b]
    exact ⟨rfl, rfl⟩

theorem claim_C10_cmp_amended_witness :
    rn_buffer_cmp ⟨1, [5], 1⟩ ⟨2, [5], 1⟩ = 0 ↔
      rn_buffer_size ⟨1, [5], 1⟩ = rn_buffer_size ⟨2, [5], 1⟩ ∧
      (⟨1, [5], 1⟩ : rn_buffer_t).data = (⟨2, [5], 1⟩ : rn_buffer_t).data :=
  (claim_C10_cmp_amended ⟨1, [5], 1⟩ ⟨2, [5], 1⟩ ⟨3, [], 0⟩).2.1 (by decide)

/-! ### `rn_buffer_tolong` (claim C8) -/

/-- Modelled from the spec: `rn_buffer_helper_growthsize` is repository code
outside `src/`; the spec describes the default growth policy as geometric
(doubling) growth, capped at `maxsize`.  It is modelled as doubling the
current capacity, but at least the requested size. -/
def rn_buffer_helper_growthsize (b : rn_buffer_t) (size : Nat) : Nat :=
  max (2 * b.msize) size

/-- Modelled from the spec: `rn_buffer_helper_realloc` is repository code
outside `src/`; it delegates to the standard allocator, modelled as always
succeeding and keeping the abstract address. -/
def rn_buffer_helper_realloc (b : rn_buffer_t) (_ : Nat) : Option Nat :=
  some b.ptr

/-- Modelled from the spec: `rn_buffer_helper_malloc` is repository code
outside `src/`; it delegates to the standard allocator, modelled as always
succeeding. -/
def rn_buffer_helper_malloc (b : rn_buffer_t) (_ : Nat) : Option Nat :=
  some b.ptr

/-- The `default_class` of `buffer.c`, built from the helper policies.  The
numeric `inisize`/`maxsize` constants live outside `src/` and are modelled by
representative values; no theorem depends on them. -/
def default_class : rn_buffer_class_t :=
  { inisize := 1024
    maxsize := 1024 * 1024 * 1024
    init := none
    growthsize := some rn_buffer_helper_growthsize
    malloc := some rn_buffer_helper_malloc
    realloc := some rn_buffer_helper_realloc
    free := none }

/-- `rn_buffer_tolong(buffer, len, base)` from `buffer.c`.  The numeric
conversion itself is done by the libc function `strtol`, taken here as a
parameter mapping the byte contents and the base to the parsed value together
with the offset of the end pointer.  When `msize = 0` the buffer is assumed
unallocated: the conversion runs on a duplicate made with the default class
(`rn_buffer_dup_class`) which is destroyed afterwards, and the buffer itself
is untouched.  Otherwise a temporary null byte is appended with
`rn_buffer_addnull`, `strtol` runs on the contents, and `buffer->size` is
decremented before returning — also when `rn_buffer_addnull` added nothing or
failed.  Returns (conversion result, processed length, final buffer). -/
def rn_buffer_tolong (cls : rn_buffer_class_t)
    (strtol : List Nat → Int → Int × Nat) (b : rn_buffer_t) (base : Int) :
    Int × Nat × rn_buffer_t :=
  if b.msize = 0 then
    if (rn_buffer_addnull default_class
        { ptr := b.ptr, data := b.data, msize := rn_buffer_size b }).1 = 0 then
      ((strtol (rn_buffer_addnull default_class
          { ptr := b.ptr, data := b.data, msize := rn_buffer_size b }).2.data
          base).1,
       (strtol (rn_buffer_addnull default_class
          { ptr := b.ptr, data := b.data, msize := rn_buffer_size b }).2.data
          base).2,
       b)
    else (0, 0, b)
  else
    if (rn_buffer_addnull cls b).1 = 0 then
      ((strtol (rn_buffer_addnull cls b).2.data base).1,
       (strtol (rn_buffer_addnull cls b).2.data base).2,
       { (rn_buffer_addnull cls b).2 with
           data := (rn_buffer_addnull cls b).2.data.dropLast })
    else
      (0, 0,
       { (rn_buffer_addnull cls b).2 with
           data := (rn_buffer_addnull cls b).2.data.dropLast })

/-- Claim C8 is refuted on the code: for a growable buffer (`msize > 0`)
whose last byte is already a null byte, `rn_buffer_addnull` appends nothing
but `rn_buffer_tolong` still decrements `buffer->size`, so the buffer loses
its final byte.  Concretely, a buffer with contents `[0]` comes back empty. -/
theorem claim_C8_counterexample :
    (rn_buffer_tolong grow_test_class (fun _ _ => (0, 0)) ⟨1, [0], 4⟩ 10).2.2.data
        = [] ∧
    rn_buffer_size
        (rn_buffer_tolong grow_test_class (fun _ _ => (0, 0)) ⟨1, [0], 4⟩ 10).2.2
        = 0 ∧
    (⟨1, [0], 4⟩ : rn_buffer_t).msize > 0 ∧
    rn_buffer_size (⟨1, [0], 4⟩ : rn_buffer_t) = 1 := by
  decide

/-- Claim C8 (amended): for every buffer with allocated storage (`msize > 0`),
`rn_buffer_tolong` leaves the buffer's size and contents unchanged, provided
the buffer is empty or its last byte is not already a null byte and the append
of the temporary null byte succeeds; the temporary null byte is removed before
returning.  (If the last byte is already null, or the append fails, the final
size decrement instead drops a real byte.) -/
theorem claim_C8_tolong_frame (cls : rn_buffer_class_t)
    (strtol : List Nat → Int → Int × Nat) (b : rn_buffer_t) (base : Int)
    (hm : 0 < b.msize)
    (hlast : rn_buffer_size b = 0 ∨ b.data.getLast? ≠ some 0)
    (hok : (rn_buffer_addnull cls b).1 = 0) :
    (rn_buffer_tolong cls strtol b base).2.2.data = b.data ∧
    rn_buffer_size (rn_buffer_tolong cls strtol b base).2.2 =
      rn_buffer_size b := by
  have hdata : (rn_buffer_addnull cls b).2.data = b.data ++ [0] := by
    rcases rn_buffer_add_cases cls b [0] with ⟨h1, h2⟩ | ⟨h1, h2⟩
    · unfold rn_buffer_addnull
      rw [if_pos hlast]
      dsimp only
      rw [if_neg (by rw [h1]; simp)]
      exact h2
    · exfalso
      unfold rn_buffer_addnull at hok
      rw [if_pos hlast] at hok
      dsimp only at hok
      rw [if_pos (by rw [h1]; simp)] at hok
      simp at hok
  unfold rn_buffer_tolong
  rw [if_neg (by omega), if_pos hok]
  dsimp only
  rw [hdata]
  constructor
  · simp
  · simp [rn_buffer_size]

theorem claim_C8_tolong_frame_witness :
    (rn_buffer_tolong static_class (fun _ _ => (0, 0)) ⟨1, [49], 4⟩ 10).2.2.data
        = [49] ∧
    rn_buffer_size
        (rn_buffer_tolong static_class (fun _ _ => (0, 0)) ⟨1, [49], 4⟩ 10).2.2
        = 1 :=
  claim_C8_tolong_frame static_class (fun _ _ => (0, 0)) ⟨1, [49], 4⟩ 10
    (by decide) (by decide) (by decide)

/-! ### Addresses (claim C5) -/

def AF_INET : Nat := 2

def AF_INET6 : Nat := 10

/-- `rn_addr_t` from `socket.h`: a C union of `struct sockaddr`,
`struct sockaddr_in` (IPv4) and `struct sockaddr_in6` (IPv6).  In all three
members the address family occupies the first two bytes; in both `sockaddr_in`
and `sockaddr_in6` the port occupies the next two bytes, so `v4.sin_port` and
`v6.sin6_port` alias the same storage.  The shared field `port_stored` models
that 16-bit port value exactly as it sits in memory (network byte order); the
remaining, family-specific bytes are modelled by the two payload fields. -/
structure rn_addr_t where
  sa_family : Nat
  port_stored : Nat
  v4_sin_addr : Nat
  v6_sin6_addr : List Nat
deriving DecidableEq

/-- The `v4.sin_port` field of the union (the two bytes at offset 2). -/
def v4_sin_port (a : rn_addr_t) : Nat := a.port_stored

/-- The `v6.sin6_port` field of the union (the two bytes at offset 2). -/
def v6_sin6_port (a : rn_addr_t) : Nat := a.port_stored

/-- `IS_IPV4(addr)` from `socket.h`: `addr->sa.sa_family == AF_INET`. -/
def IS_IPV4 (a : rn_addr_t) : Bool := a.sa_family == AF_INET

/-- `IS_IPV6(addr)` from `socket.h`: `addr->sa.sa_family == AF_INET6`. -/
def IS_IPV6 (a : rn_addr_t) : Bool := a.sa_family == AF_INET6

/-- `rn_addr_getport(addr)` from `socket.h`:
`IS_IPV4(addr) ? addr->v4.sin_port : addr->v6.sin6_port`, with no byte-order
conversion applied. -/
def rn_addr_getport (a : rn_addr_t) : Nat :=
  if IS_IPV4 a then v4_sin_port a else v6_sin6_port a

/-- Claim C5: on a value tagged `AF_INET`, `rn_addr_getport` returns the
stored `v4.sin_port` field, and on a value tagged `AF_INET6` the stored
`v6.sin6_port` field, in both cases exactly the value as stored, with no
byte-order conversion. -/
theorem claim_C5_getport (a : rn_addr_t) :
    (a.sa_family = AF_INET → rn_addr_getport a = v4_sin_port a) ∧
    (a.sa_family = AF_INET6 → rn_addr_getport a = v6_sin6_port a) := by
  constructor
  · intro h4
    unfold rn_addr_getport IS_IPV4
    rw [if_pos (by simp [h4])]
  · intro h6
    unfold rn_addr_getport IS_IPV4
    rw [if_neg (by simp [h6, AF_INET, AF_INET6])]

theorem claim_C5_getport_witness :
    rn_addr_getport ⟨2, 80, 0x7f000001, []⟩ =
        v4_sin_port ⟨2, 80, 0x7f000001, []⟩ ∧
    rn_addr_getport ⟨10, 443, 0, [0, 1]⟩ =
        v6_sin6_port ⟨10, 443, 0, [0, 1]⟩ :=
  ⟨(claim_C5_getport ⟨2, 80, 0x7f000001, []⟩).1 (by decide),
   (claim_C5_getport ⟨10, 443, 0, [0, 1]⟩).2 (by decide)⟩

/-! ### Socket retry counter (claim C6) -/

/-- `MAX_IO_CALLS` from `socket.h`. -/
def MAX_IO_CALLS : Nat := 10

/-- The socket structure of `socket.h`, keeping the `io_calls` retry counter;
the scheduling node, the parent pointer and the class dispatch table are
irrelevant to the counter protocol and are abstracted to identifiers. -/
structure rn_socket_t where
  io_calls : Nat
  node : Nat
  parent : Option Nat
deriving DecidableEq

/-- Modelled from the spec: the retry loop of the socket blocking operations
(`rn_socket_waitio` and the operations of `net/socket.c`, code outside
`src/`).  One resumption step of a blocked operation: on a byte of progress
the counter is reset; otherwise the counter is incremented, and when it
reaches `MAX_IO_CALLS` the operation yields once to the tail of the run queue
(the returned flag) and resets the counter to `0`. -/
def rn_socket_io_step (s : rn_socket_t) (progress : Bool) :
    rn_socket_t × Bool :=
  if progress then ({ s with io_calls := 0 }, false)
  else if s.io_calls + 1 ≥ MAX_IO_CALLS then ({ s with io_calls := 0 }, true)
  else ({ s with io_calls := s.io_calls + 1 }, false)

/-- Claim C6: `MAX_IO_CALLS` equals `10`; the suspension protocol keeps the
`io_calls` counter of every socket bounded by this constant, and a socket
whose counter has reached the bound without a byte of progress yields exactly
once to the tail of the run queue with its counter reset to `0`; no other
step yields. -/
theorem claim_C6_max_io_calls (s : rn_socket_t) (progress : Bool)
    (hinv : s.io_calls < MAX_IO_CALLS) :
    MAX_IO_CALLS = 10 ∧
    (rn_socket_io_step s progress).1.io_calls < MAX_IO_CALLS ∧
    ((rn_socket_io_step s progress).2 = true ↔
      progress = false ∧ s.io_calls + 1 = MAX_IO_CALLS) ∧
    ((rn_socket_io_step s progress).2 = true →
      (rn_socket_io_step s progress).1.io_calls = 0) := by
  unfold rn_socket_io_step MAX_IO_CALLS at *
  cases progress with
  | true => simp
  | false =>
    by_cases hge : s.io_calls + 1 ≥ 10
    · refine ⟨rfl, ?_, ?_, ?_⟩
      all_goals simp [hge]
      all_goals omega
    · refine ⟨rfl, ?_, ?_, ?_⟩
      all_goals simp [hge]
      all_goals omega

theorem claim_C6_max_io_calls_witness :
    MAX_IO_CALLS = 10 ∧
    (rn_socket_io_step ⟨9, 0, none⟩ false).1.io_calls < MAX_IO_CALLS ∧
    ((rn_socket_io_step ⟨9, 0, none⟩ false).2 = true ↔
      false = false ∧ 9 + 1 = MAX_IO_CALLS) ∧
    ((rn_socket_io_step ⟨9, 0, none⟩ false).2 = true →
      (rn_socket_io_step ⟨9, 0, none⟩ false).1.io_calls = 0) :=
  claim_C6_max_io_calls ⟨9, 0, none⟩ false (by decide)

/-! ### `rn_socket_readline` (claim C7) -/

/-- Boolean test that `p` is an initial segment of `l`. -/
def listStartsWith (p l : List Nat) : Bool := l.take p.length == p

/-- First offset at which `delim` begins inside the scanned suffix of the
buffer; `l` is the suffix starting at offset `i` and the function returns the
absolute offset of the first match, or `none`. -/
def scanDelim (delim : List Nat) : List Nat → Nat → Option Nat
  | [], i => if listStartsWith delim [] then some i else none
  | x :: t, i =>
    if listStartsWith delim (x :: t) then some i else scanDelim delim t (i + 1)

/-- Result of the modelled `rn_socket_readline`: a completed line of so many
bytes (delimiter included), end of stream, or buffer overflow. -/
inductive ReadlineResult
  | line (nbytes : Nat)
  | eof
  | overflow
deriving DecidableEq

/-- Modelled from the spec: the implementation of `rn_socket_readline`
(`net/socket.c`) is repository code outside `src/`; only its declaration in
`socket.h` is available.  Following the spec, each round reads the bytes the
peer makes available (`stream round`, the empty list meaning end of stream),
appends them to the buffer — accumulating at most `maxsize` bytes in total —
then scans only the newly read bytes for the (possibly multi-byte) delimiter,
starting `|delim| - 1` bytes before the old end so a delimiter spanning two
rounds is still found.  A found delimiter yields the line, a full buffer
without delimiter yields `overflow`, otherwise the next round runs. -/
def rn_socket_readline_loop (stream : Nat → List Nat) (delim : List Nat)
    (maxsize : Nat) (round : Nat) (buf : List Nat) :
    ReadlineResult × List Nat :=
  if hs : stream round = [] then (ReadlineResult.eof, buf)
  else
    match scanDelim delim
        ((buf ++ (stream round).take (maxsize - buf.length)).drop
          (buf.length - (delim.length - 1)))
        (buf.length - (delim.length - 1)) with
    | some pos =>
      (ReadlineResult.line (pos + delim.length),
        buf ++ (stream round).take (maxsize - buf.length))
    | none =>
      if maxsize ≤ (buf ++ (stream round).take (maxsize - buf.length)).length then
        (ReadlineResult.overflow,
          buf ++ (stream round).take (maxsize - buf.length))
      else
        rn_socket_readline_loop stream delim maxsize (round + 1)
          (buf ++ (stream round).take (maxsize - buf.length))
termination_by maxsize - buf.length
decreasing_by
  rename_i hle
  simp only [List.length_append, List.length_take] at hle ⊢
  have hpos : 0 < (stream round).length := List.length_pos.mpr hs
  omega

/-- Modelled from the spec: entry point of `rn_socket_readline(socket, buffer,
delim, maxsize)`, reading from round `0` into the caller's buffer. -/
def rn_socket_readline (stream : Nat → List Nat) (buf delim : List Nat)
    (maxsize : Nat) : ReadlineResult × List Nat :=
  rn_socket_readline_loop stream delim maxsize 0 buf

theorem listStartsWith_iff (p l : List Nat) :
    listStartsWith p l = true ↔ l.take p.length = p := by
  simp [listStartsWith]

theorem listStartsWith_of_take (p : List Nat) (m : Nat) (l : List Nat)
    (h : listStartsWith p (l.take m) = true) : listStartsWith p l = true := by
  rw [listStartsWith_iff] at h ⊢
  rw [List.take_take] at h
  by_cases hm : p.length ≤ m
  · rwa [min_eq_left hm] at h
  · exfalso
    have hlen := congrArg List.length h
    simp [List.length_take] at hlen
    omega

theorem scanDelim_none (delim : List Nat) :
    ∀ (l : List Nat) (i : Nat),
      (∀ k, listStartsWith delim (l.drop k) = false) →
      scanDelim delim l i = none := by
  intro l
  induction l with
  | nil =>
    intro i h
    unfold scanDelim
    rw [if_neg]
    have := h 0
    simp at this
    simp [this]
  | cons x t ih =>
    intro i h
    unfold scanDelim
    rw [if_neg (by have := h 0; simp at this; simp [this])]
    exact ih (i + 1) (fun k => h (k + 1))

theorem listStartsWith_drop_take (p l : List Nat) (m k : Nat)
    (h : listStartsWith p ((l.take m).drop k) = true) :
    listStartsWith p (l.drop k) = true := by
  rw [List.drop_take] at h
  exact listStartsWith_of_take p (m - k) (l.drop k) h

theorem flatten_shift (stream : Nat → List Nat) (r j : Nat) :
    (List.range (j + 1)).flatMap (fun i => stream (r + i)) =
      stream r ++ (List.range j).flatMap (fun i => stream (r + 1 + i)) := by
  induction j with
  | zero =>
    rw [List.range_succ]
    simp
  | succ j ih =>
    rw [List.range_succ, List.flatMap_append, ih, List.range_succ,
      List.flatMap_append]
    simp only [List.flatMap_cons, List.flatMap_nil, List.append_nil,
      List.append_assoc]
    have : r + (j + 1) = r + 1 + j := by omega
    rw [this]

/-- The readline loop on a stream that keeps producing bytes but never
contains the delimiter returns `overflow` with the buffer filled to exactly
`maxsize` bytes. -/
theorem readline_loop_overflow (stream : Nat → List Nat) (delim : List Nat)
    (maxsize : Nat) (round : Nat) (buf : List Nat)
    (hbuf : buf.length ≤ maxsize)
    (hne : ∀ n, stream n ≠ [])
    (hnd : ∀ j k, listStartsWith delim
        ((buf ++ (List.range j).flatMap (fun i => stream (round + i))).drop k)
        = false) :
    (rn_socket_readline_loop stream delim maxsize round buf).1 =
        ReadlineResult.overflow ∧
    (rn_socket_readline_loop stream delim maxsize round buf).2.length =
        maxsize := by
  have main : ∀ (fuel round : Nat) (buf : List Nat),
      maxsize - buf.length ≤ fuel →
      buf.length ≤ maxsize →
      (∀ j k, listStartsWith delim
        ((buf ++ (List.range j).flatMap (fun i => stream (round + i))).drop k)
        = false) →
      (rn_socket_readline_loop stream delim maxsize round buf).1 =
          ReadlineResult.overflow ∧
      (rn_socket_readline_loop stream delim maxsize round buf).2.length =
          maxsize := by
    intro fuel
    induction fuel with
    | zero =>
      intro round buf hfuel hb hocc
      have hlen : buf.length = maxsize := by omega
      have hocc1 : ∀ k, listStartsWith delim
          ((buf ++ (stream round).take (maxsize - buf.length)).drop k)
          = false := by
        intro k
        have h0 := hocc 0 k
        simp only [List.range_zero, List.flatMap_nil, List.append_nil] at h0
        simpa [hlen] using h0
      have hscan : scanDelim delim
          ((buf ++ (stream round).take (maxsize - buf.length)).drop
            (buf.length - (delim.length - 1)))
          (buf.length - (delim.length - 1)) = none := by
        apply scanDelim_none
        intro k
        rw [List.drop_drop]
        exact hocc1 _
      unfold rn_socket_readline_loop
      rw [dif_neg (hne round), hscan]
      rw [if_pos (by simp [hlen])]
      constructor
      · rfl
      · simp [hlen]
    | succ n ih =>
      intro round buf hfuel hb hocc
      have hocc1 : ∀ k, listStartsWith delim
          ((buf ++ (stream round).take (maxsize - buf.length)).drop k)
          = false := by
        intro k
        have h1 := hocc 1 k
        rw [flatten_shift] at h1
        simp only [List.range_zero, List.flatMap_nil, List.append_nil] at h1
        by_contra hcon
        rw [Bool.not_eq_false] at hcon
        have heq : (buf ++ stream round).take
            (buf.length + (maxsize - buf.length)) =
            buf ++ (stream round).take (maxsize - buf.length) := by
          rw [List.take_append_eq_append_take,
            List.take_of_length_le (Nat.le_add_right _ _)]
          simp
        rw [← heq] at hcon
        have := listStartsWith_drop_take delim (buf ++ stream round)
          (buf.length + (maxsize - buf.length)) k hcon
        rw [h1] at this
        exact absurd this (by simp)
      have hscan : scanDelim delim
          ((buf ++ (stream round).take (maxsize - buf.length)).drop
            (buf.length - (delim.length - 1)))
          (buf.length - (delim.length - 1)) = none := by
        apply scanDelim_none
        intro k
        rw [List.drop_drop]
        exact hocc1 _
      unfold rn_socket_readline_loop
      rw [dif_neg (hne round), hscan]
      by_cases hfull : maxsize ≤
          (buf ++ (stream round).take (maxsize - buf.length)).length
      · rw [if_pos hfull]
        refine ⟨rfl, ?_⟩
        simp only [List.length_append, List.length_take] at hfull ⊢
        omega
      · rw [if_neg hfull]
        have hsr : (stream round).length ≤ maxsize - buf.length := by
          simp only [List.length_append, List.length_take] at hfull
          omega
        have htk : (stream round).take (maxsize - buf.length) = stream round :=
          List.take_of_length_le hsr
        rw [htk]
        apply ih (round + 1) (buf ++ stream round)
        · have hgrow : 0 < (stream round).length :=
            List.length_pos.mpr (hne round)
          simp only [List.length_append]
          omega
        · simp only [List.length_append]
          simp only [List.length_append, List.length_take, not_le] at hfull
          omega
        · intro j k
          have hj := hocc (j + 1) k
          rw [flatten_shift] at hj
          rw [← List.append_assoc] at hj
          exact hj
  exact main (maxsize - buf.length) round buf le_rfl hbuf hnd

/-- Claim C7: `rn_socket_readline` on a stream that never contains the
delimiter returns `overflow` after exactly `maxsize` bytes have been
accumulated — the buffer holds exactly `maxsize` bytes on return.  (That each
round scans only the newly read bytes is part of the modelled definition
`rn_socket_readline_loop`.) -/
theorem claim_C7_readline_overflow (stream : Nat → List Nat)
    (buf delim : List Nat) (maxsize : Nat)
    (hbuf : buf.length ≤ maxsize)
    (hne : ∀ n, stream n ≠ [])
    (hnd : ∀ j k, listStartsWith delim
        ((buf ++ (List.range j).flatMap (fun i => stream i)).drop k) = false) :
    (rn_socket_readline stream buf delim maxsize).1 =
        ReadlineResult.overflow ∧
    (rn_socket_readline stream buf delim maxsize).2.length = maxsize := by
  unfold rn_socket_readline
  apply readline_loop_overflow stream delim maxsize 0 buf hbuf hne
  intro j k
  have := hnd j k
  simpa using this

/-- A constant stream of the byte `65` never contains the delimiter `[10]`. -/
theorem const65_no_delim (j k : Nat) :
    listStartsWith [10]
      (([] ++ (List.range j).flatMap (fun i => (fun _ => [65]) i)).drop k)
      = false := by
  by_contra hcon
  rw [Bool.not_eq_false, listStartsWith_iff] at hcon
  have h10 : (10 : Nat) ∈
      (([] ++ (List.range j).flatMap (fun i => (fun _ => [65]) i)).drop k) := by
    have hm : (10 : Nat) ∈ [10] := by simp
    rw [← hcon] at hm
    exact List.take_subset _ _ hm
  have h10' := List.drop_subset _ _ h10
  simp [List.mem_flatMap] at h10'

theorem claim_C7_readline_overflow_witness :
    (rn_socket_readline (fun _ => [65]) [] [10] 3).1 =
        ReadlineResult.overflow ∧
    (rn_socket_readline (fun _ => [65]) [] [10] 3).2.length = 3 :=
  claim_C7_readline_overflow (fun _ => [65]) [] [10] 3 (by simp)
    (fun _ => by simp) (fun j k => const65_no_delim j k)

/-! ### Base64 encoding (claim C2)

`rn_buffer_b64encode` of `buffer.c` feeds each source byte into a 32-bit
accumulator (`unsigned int bits`, wraparound modelled by `% 4294967296`,
i.e. `% 2 ^ 32`) and emits `(bits << 6 >> shift) & 0x3f` repeatedly in an
inner do-while loop, then pads the destination with `'='` (byte 61) until its
size is a multiple of four. -/

/-- The table `b64` of `rn_buffer_b64encode`: the ASCII codes of
`A`–`Z`, `a`–`z`, `0`–`9`, `+`, `/`. -/
def b64tab : List Nat :=
  (List.range 26).map (· + 65) ++ (List.range 26).map (· + 97) ++
    (List.range 10).map (· + 48) ++ [43, 47]

/-- Table lookup `b64[v]`. -/
def b64char (v : Nat) : Nat := b64tab.getD v 0

/-- The emitted six-bit index `(bits << 6 >> shift) & 0x3f`, computed on the
32-bit accumulator. -/
def b64idx (bits shift : Nat) : Nat := bits * 64 % 4294967296 / 2 ^ shift % 64

/-- The inner do-while loop of `rn_buffer_b64encode`: emit one character,
decrement `shift` by `6`, and continue `while (shift > 6 || (last && shift >
0))`; returns the emitted six-bit indices and the final `shift`.  (In C the
final `shift` can go negative on the last byte; it is then never used again,
so the `Nat` truncation is faithful.) -/
def emitLoop (bits shift : Nat) (last : Bool) : List Nat × Nat :=
  if 6 < shift - 6 ∨ (last = true ∧ 0 < shift - 6) then
    match emitLoop bits (shift - 6) last with
    | (cs, s) => (b64idx bits shift :: cs, s)
  else ([b64idx bits shift], shift - 6)
termination_by shift
decreasing_by omega

/-- The outer loop of `rn_buffer_b64encode`: for each source byte,
`bits = (bits << 8) + byte` on the 32-bit accumulator, `shift += 8`, then the
inner do-while emits; `last` holds on the final byte.  Returns the list of
emitted six-bit indices. -/
def rn_buffer_b64encode_loop : Nat → Nat → List Nat → List Nat
  | _, _, [] => []
  | bits, shift, b :: rest =>
    (emitLoop ((bits * 256 + b) % 4294967296) (shift + 8) rest.isEmpty).1 ++
      rn_buffer_b64encode_loop ((bits * 256 + b) % 4294967296)
        (emitLoop ((bits * 256 + b) % 4294967296) (shift + 8) rest.isEmpty).2 rest

/-- The final padding loop of `rn_buffer_b64encode`:
`while (rn_buffer_size(dst) & 3) rn_buffer_add(dst, "=", 1)`. -/
def padEq (l : List Nat) : List Nat :=
  if l.length % 4 = 0 then l else padEq (l ++ [61])
termination_by (4 - l.length % 4) % 4
decreasing_by
  simp only [List.length_append, List.length_singleton]
  omega

/-- `rn_buffer_b64encode(dst, src)` from `buffer.c`: appends the base64
characters of `src`'s contents to `dst` (each one through `rn_buffer_add`,
whose allocation is assumed to succeed on the growable destination), then
pads `dst` to a multiple of four bytes with `'='`. -/
def rn_buffer_b64encode (dst src : rn_buffer_t) : rn_buffer_t :=
  { dst with
      data := padEq (dst.data ++
        (rn_buffer_b64encode_loop 0 0 src.data).map b64char) }

/-- Written from the spec's words for the round-trip claim: a standard base64
decoder.  Trailing `'='` padding is stripped, the remaining characters are
mapped back to their six-bit values through the table, and each group of four
values (three for a final group of three, one for a final group of two) is
reassembled into bytes. -/
def b64val (c : Nat) : Nat := b64tab.indexOf c

/-- Written from the spec's words: reassembling bytes from six-bit values
(see `b64val`). -/
def b64decodeVals : List Nat → List Nat
  | v0 :: v1 :: v2 :: v3 :: rest =>
      (v0 * 4 + v1 / 16) :: (v1 % 16 * 16 + v2 / 4) :: (v2 % 4 * 64 + v3) ::
        b64decodeVals rest
  | [v0, v1] => [v0 * 4 + v1 / 16]
  | [v0, v1, v2] => [v0 * 4 + v1 / 16, v1 % 16 * 16 + v2 / 4]
  | _ => []

/-- Written from the spec's words: the standard base64 decode used to state
the round-trip property. -/
def b64decode (l : List Nat) : List Nat :=
  b64decodeVals (((l.reverse.dropWhile (fun c => c == 61)).reverse).map b64val)

/-- The clean six-bit regrouping of a byte string, in groups of three bytes
to four values; the encoder loop is proved to produce exactly this. -/
def b64groups : List Nat → List Nat
  | b0 :: b1 :: b2 :: rest =>
      b0 / 4 :: (b0 % 4 * 16 + b1 / 16) :: (b1 % 16 * 4 + b2 / 64) :: b2 % 64 ::
        b64groups rest
  | [b0] => [b0 / 4, b0 % 4 * 16]
  | [b0, b1] => [b0 / 4, b0 % 4 * 16 + b1 / 16, b1 % 16 * 4]
  | [] => []

theorem emitLoop_8_false (b : Nat) : emitLoop b 8 false = ([b64idx b 8], 2) := by
  unfold emitLoop; norm_num

theorem emitLoop_10_false (b : Nat) : emitLoop b 10 false = ([b64idx b 10], 4) := by
  unfold emitLoop; norm_num

theorem emitLoop_12_false (b : Nat) : emitLoop b 12 false = ([b64idx b 12], 6) := by
  unfold emitLoop; norm_num

theorem emitLoop_14_false (b : Nat) :
    emitLoop b 14 false = ([b64idx b 14, b64idx b 8], 2) := by
  unfold emitLoop; norm_num
  unfold emitLoop; norm_num

theorem emitLoop_8_true (b : Nat) :
    emitLoop b 8 true = ([b64idx b 8, b64idx b 2], 0) := by
  unfold emitLoop; norm_num
  unfold emitLoop; norm_num

theorem emitLoop_10_true (b : Nat) :
    emitLoop b 10 true = ([b64idx b 10, b64idx b 4], 0) := by
  unfold emitLoop; norm_num
  unfold emitLoop; norm_num

theorem emitLoop_12_true (b : Nat) :
    emitLoop b 12 true = ([b64idx b 12, b64idx b 6], 0) := by
  unfold emitLoop; norm_num
  unfold emitLoop; norm_num

theorem emitLoop_14_true (b : Nat) :
    emitLoop b 14 true = ([b64idx b 14, b64idx b 8, b64idx b 2], 0) := by
  unfold emitLoop; norm_num
  unfold emitLoop; norm_num
  unfold emitLoop; norm_num

theorem b64idx_14 (bits b0 : Nat) (h : b0 < 256) :
    b64idx ((bits * 256 + b0) % 4294967296) 14 = bits % 64 := by
  unfold b64idx; omega

theorem b64idx_8 (bits b0 : Nat) (h : b0 < 256) :
    b64idx ((bits * 256 + b0) % 4294967296) 8 = b0 / 4 := by
  unfold b64idx; omega

theorem b64idx_2 (bits b0 : Nat) (h : b0 < 256) :
    b64idx ((bits * 256 + b0) % 4294967296) 2 = b0 % 4 * 16 := by
  unfold b64idx; omega

theorem b64idx_10 (x b1 : Nat) (h : b1 < 256) :
    b64idx ((x * 256 + b1) % 4294967296) 10 = x % 4 * 16 + b1 / 16 := by
  unfold b64idx; omega

theorem b64idx_4 (x b1 : Nat) (h : b1 < 256) :
    b64idx ((x * 256 + b1) % 4294967296) 4 = b1 % 16 * 4 := by
  unfold b64idx; omega

theorem b64idx_12 (y b2 : Nat) (h : b2 < 256) :
    b64idx ((y * 256 + b2) % 4294967296) 12 = y % 16 * 4 + b2 / 64 := by
  unfold b64idx; omega

theorem b64idx_6 (y b2 : Nat) (h : b2 < 256) :
    b64idx ((y * 256 + b2) % 4294967296) 6 = b2 % 64 := by
  unfold b64idx; omega

theorem mod4_step (x b : Nat) (h : b < 256) :
    ((x * 256 + b) % 4294967296) % 4 = b % 4 := by omega

theorem mod16_step (x b : Nat) (h : b < 256) :
    ((x * 256 + b) % 4294967296) % 16 = b % 16 := by omega

theorem mod64_step (x b : Nat) (h : b < 256) :
    ((x * 256 + b) % 4294967296) % 64 = b % 64 := by omega

/-- With more input remaining, entering the outer loop with `shift = 6` (the
steady state after every third byte) first flushes the six pending bits and
then produces exactly the six-bit regrouping of the remaining bytes. -/
theorem encode_loop_chars :
    ∀ (n : Nat) (xs : List Nat) (bits : Nat), xs ≠ [] → xs.length ≤ n →
      (∀ b ∈ xs, b < 256) →
      rn_buffer_b64encode_loop bits 6 xs = bits % 64 :: b64groups xs := by
  intro n
  induction n with
  | zero =>
    intro xs bits hne hlen _
    cases xs with
    | nil => exact absurd rfl hne
    | cons a t => simp at hlen
  | succ n ih =>
    intro xs bits hne hlen hlt
    match xs with
    | [b0] =>
      have hb0 : b0 < 256 := hlt b0 (by simp)
      simp only [rn_buffer_b64encode_loop, List.isEmpty_nil]
      norm_num [emitLoop_14_true]
      rw [b64idx_14 bits b0 hb0, b64idx_8 bits b0 hb0, b64idx_2 bits b0 hb0]
      simp [b64groups]
    | [b0, b1] =>
      have hb0 : b0 < 256 := hlt b0 (by simp)
      have hb1 : b1 < 256 := hlt b1 (by simp)
      simp only [rn_buffer_b64encode_loop, List.isEmpty_cons, List.isEmpty_nil]
      norm_num [emitLoop_14_false, emitLoop_10_true]
      rw [b64idx_14 bits b0 hb0, b64idx_8 bits b0 hb0]
      rw [b64idx_10 _ b1 hb1, b64idx_4 _ b1 hb1, mod4_step bits b0 hb0]
      simp [b64groups]
    | [b0, b1, b2] =>
      have hb0 : b0 < 256 := hlt b0 (by simp)
      have hb1 : b1 < 256 := hlt b1 (by simp)
      have hb2 : b2 < 256 := hlt b2 (by simp)
      simp only [rn_buffer_b64encode_loop, List.isEmpty_cons, List.isEmpty_nil]
      norm_num [emitLoop_14_false, emitLoop_10_false, emitLoop_12_true]
      rw [b64idx_14 bits b0 hb0, b64idx_8 bits b0 hb0]
      rw [b64idx_10 _ b1 hb1, mod4_step bits b0 hb0]
      rw [b64idx_12 _ b2 hb2, mod16_step _ b1 hb1]
      rw [b64idx_6 _ b2 hb2]
      simp [b64groups]
    | b0 :: b1 :: b2 :: r :: rest =>
      have hb0 : b0 < 256 := hlt b0 (by simp)
      have hb1 : b1 < 256 := hlt b1 (by simp)
      have hb2 : b2 < 256 := hlt b2 (by simp)
      have hlt' : ∀ b ∈ r :: rest, b < 256 := by
        intro b hb
        apply hlt
        simp only [List.mem_cons] at hb ⊢
        tauto
      have hlen' : (r :: rest).length ≤ n := by
        simp only [List.length_cons] at hlen ⊢
        omega
      rw [rn_buffer_b64encode_loop]
      rw [rn_buffer_b64encode_loop]
      rw [rn_buffer_b64encode_loop]
      simp only [List.isEmpty_cons]
      rw [show (6 : Nat) + 8 = 14 from rfl, emitLoop_14_false]
      dsimp only
      rw [show (2 : Nat) + 8 = 10 from rfl, emitLoop_10_false]
      dsimp only
      rw [show (4 : Nat) + 8 = 12 from rfl, emitLoop_12_false]
      dsimp only
      rw [ih (r :: rest) _ (by simp) hlen' hlt']
      rw [b64idx_14 bits b0 hb0, b64idx_8 bits b0 hb0]
      rw [b64idx_10 _ b1 hb1, mod4_step bits b0 hb0]
      rw [b64idx_12 _ b2 hb2, mod16_step _ b1 hb1]
      rw [mod64_step _ b2 hb2]
      simp [b64groups]

/-- From the initial state (`bits = 0`, `shift = 0`) the encoder loop emits
exactly the six-bit regrouping of the input bytes. -/
theorem encode_loop_chars0 (xs : List Nat) (hlt : ∀ b ∈ xs, b < 256) :
    rn_buffer_b64encode_loop 0 0 xs = b64groups xs := by
  match xs with
  | [] => rfl
  | [b0] =>
    have hb0 : b0 < 256 := hlt b0 (by simp)
    rw [rn_buffer_b64encode_loop]
    simp only [List.isEmpty_nil]
    rw [show (0 : Nat) + 8 = 8 from rfl, emitLoop_8_true]
    dsimp only
    rw [b64idx_8 0 b0 hb0, b64idx_2 0 b0 hb0]
    simp [b64groups, rn_buffer_b64encode_loop]
  | [b0, b1] =>
    have hb0 : b0 < 256 := hlt b0 (by simp)
    have hb1 : b1 < 256 := hlt b1 (by simp)
    rw [rn_buffer_b64encode_loop]
    rw [rn_buffer_b64encode_loop]
    simp only [List.isEmpty_cons, List.isEmpty_nil]
    rw [show (0 : Nat) + 8 = 8 from rfl, emitLoop_8_false]
    dsimp only
    rw [show (2 : Nat) + 8 = 10 from rfl, emitLoop_10_true]
    dsimp only
    rw [b64idx_8 0 b0 hb0]
    rw [b64idx_10 _ b1 hb1, b64idx_4 _ b1 hb1, mod4_step 0 b0 hb0]
    simp [b64groups, rn_buffer_b64encode_loop]
  | [b0, b1, b2] =>
    have hb0 : b0 < 256 := hlt b0 (by simp)
    have hb1 : b1 < 256 := hlt b1 (by simp)
    have hb2 : b2 < 256 := hlt b2 (by simp)
    rw [rn_buffer_b64encode_loop]
    rw [rn_buffer_b64encode_loop]
    rw [rn_buffer_b64encode_loop]
    simp only [List.isEmpty_cons, List.isEmpty_nil]
    rw [show (0 : Nat) + 8 = 8 from rfl, emitLoop_8_false]
    dsimp only
    rw [show (2 : Nat) + 8 = 10 from rfl, emitLoop_10_false]
    dsimp only
    rw [show (4 : Nat) + 8 = 12 from rfl, emitLoop_12_true]
    dsimp only
    rw [b64idx_8 0 b0 hb0]
    rw [b64idx_10 _ b1 hb1, mod4_step 0 b0 hb0]
    rw [b64idx_12 _ b2 hb2, mod16_step _ b1 hb1]
    rw [b64idx_6 _ b2 hb2]
    simp [b64groups, rn_buffer_b64encode_loop]
  | b0 :: b1 :: b2 :: r :: rest =>
    have hb0 : b0 < 256 := hlt b0 (by simp)
    have hb1 : b1 < 256 := hlt b1 (by simp)
    have hb2 : b2 < 256 := hlt b2 (by simp)
    have hlt' : ∀ b ∈ r :: rest, b < 256 := by
      intro b hb
      apply hlt
      simp only [List.mem_cons] at hb ⊢
      tauto
    rw [rn_buffer_b64encode_loop]
    rw [rn_buffer_b64encode_loop]
    rw [rn_buffer_b64encode_loop]
    simp only [List.isEmpty_cons]
    rw [show (0 : Nat) + 8 = 8 from rfl, emitLoop_8_false]
    dsimp only
    rw [show (2 : Nat) + 8 = 10 from rfl, emitLoop_10_false]
    dsimp only
    rw [show (4 : Nat) + 8 = 12 from rfl, emitLoop_12_false]
    dsimp only
    rw [encode_loop_chars (r :: rest).length (r :: rest) _ (by simp) le_rfl hlt']
    rw [b64idx_8 0 b0 hb0]
    rw [b64idx_10 _ b1 hb1, mod4_step 0 b0 hb0]
    rw [b64idx_12 _ b2 hb2, mod16_step _ b1 hb1]
    rw [mod64_step _ b2 hb2]
    simp [b64groups]

/-- Closed form of the padding loop. -/
theorem padEq_spec (l : List Nat) :
    padEq l = l ++ List.replicate ((4 - l.length % 4) % 4) 61 := by
  have main : ∀ (fuel : Nat) (l : List Nat), (4 - l.length % 4) % 4 ≤ fuel →
      padEq l = l ++ List.replicate ((4 - l.length % 4) % 4) 61 := by
    intro fuel
    induction fuel with
    | zero =>
      intro l hf
      have h0 : l.length % 4 = 0 := by omega
      unfold padEq
      rw [if_pos h0, h0]
      simp
    | succ n ih =>
      intro l hf
      by_cases h0 : l.length % 4 = 0
      · unfold padEq
        rw [if_pos h0, h0]
        simp
      · unfold padEq
        rw [if_neg h0]
        rw [ih (l ++ [61]) (by simp [List.length_append]; omega)]
        simp only [List.length_append, List.length_singleton, List.append_assoc]
        congr 1
        have hk : (4 - l.length % 4) % 4 = (4 - (l.length + 1) % 4) % 4 + 1 := by
          omega
        rw [hk, List.replicate_succ]
        simp
  exact main ((4 - l.length % 4) % 4) l le_rfl

/-- The decode table inverts the encode table on six-bit values. -/
theorem b64val_b64char (v : Nat) (h : v < 64) : b64val (b64char v) = v := by
  interval_cases v <;> decide

/-- No base64 alphabet character is the padding byte `'='` (61). -/
theorem b64char_ne_61 (v : Nat) : b64char v ≠ 61 := by
  by_cases h : v < 64
  · interval_cases v <;> decide
  · unfold b64char
    rw [List.getD_eq_default]
    · decide
    · have : b64tab.length = 64 := by decide
      omega

/-- Every value produced by the six-bit regrouping is below 64. -/
theorem b64groups_lt (xs : List Nat) (hlt : ∀ b ∈ xs, b < 256) :
    ∀ v ∈ b64groups xs, v < 64 := by
  have main : ∀ (n : Nat) (xs : List Nat), xs.length ≤ n →
      (∀ b ∈ xs, b < 256) → ∀ v ∈ b64groups xs, v < 64 := by
    intro n
    induction n with
    | zero =>
      intro xs hlen _
      match xs with
      | [] => simp [b64groups]
      | x :: t => simp at hlen
    | succ n ih =>
      intro xs hlen hlt
      match xs with
      | [] => simp [b64groups]
      | [b0] =>
        have hb0 : b0 < 256 := hlt b0 (by simp)
        simp [b64groups]
        omega
      | [b0, b1] =>
        have hb0 : b0 < 256 := hlt b0 (by simp)
        have hb1 : b1 < 256 := hlt b1 (by simp)
        simp [b64groups]
        omega
      | b0 :: b1 :: b2 :: rest =>
        have hb0 : b0 < 256 := hlt b0 (by simp)
        have hb1 : b1 < 256 := hlt b1 (by simp)
        have hb2 : b2 < 256 := hlt b2 (by simp)
        have hlt' : ∀ b ∈ rest, b < 256 := by
          intro b hb
          apply hlt
          simp only [List.mem_cons]
          tauto
        have hlen' : rest.length ≤ n := by
          simp only [List.length_cons] at hlen
          omega
        intro v hv
        simp only [b64groups, List.mem_cons] at hv
        rcases hv with h | h | h | h | h
        · subst h; omega
        · subst h; omega
        · subst h; omega
        · subst h; omega
        · exact ih rest hlen' hlt' v h
  exact main xs.length xs le_rfl hlt

/-- Decoding the six-bit regrouping returns the original bytes. -/
theorem b64decodeVals_groups (xs : List Nat) (hlt : ∀ b ∈ xs, b < 256) :
    b64decodeVals (b64groups xs) = xs := by
  have main : ∀ (n : Nat) (xs : List Nat), xs.length ≤ n →
      (∀ b ∈ xs, b < 256) → b64decodeVals (b64groups xs) = xs := by
    intro n
    induction n with
    | zero =>
      intro xs hlen _
      match xs with
      | [] => rfl
      | x :: t => simp at hlen
    | succ n ih =>
      intro xs hlen hlt
      match xs with
      | [] => rfl
      | [b0] =>
        have hb0 : b0 < 256 := hlt b0 (by simp)
        simp only [b64groups, b64decodeVals]
        congr 1
        omega
      | [b0, b1] =>
        have hb0 : b0 < 256 := hlt b0 (by simp)
        have hb1 : b1 < 256 := hlt b1 (by simp)
        simp only [b64groups, b64decodeVals]
        congr 1
        · omega
        · congr 1
          omega
      | b0 :: b1 :: b2 :: rest =>
        have hb0 : b0 < 256 := hlt b0 (by simp)
        have hb1 : b1 < 256 := hlt b1 (by simp)
        have hb2 : b2 < 256 := hlt b2 (by simp)
        have hlt' : ∀ b ∈ rest, b < 256 := by
          intro b hb
          apply hlt
          simp only [List.mem_cons]
          tauto
        have hlen' : rest.length ≤ n := by
          simp only [List.length_cons] at hlen
          omega
        simp only [b64groups, b64decodeVals]
        rw [ih rest hlen' hlt']
        congr 1
        · omega
        · congr 1
          · omega
          · congr 1
            omega
  exact main xs.length xs le_rfl hlt

theorem dropWhile_61_replicate (k : Nat) (t : List Nat) :
    List.dropWhile (fun c => c == 61) (List.replicate k 61 ++ t) =
      List.dropWhile (fun c => c == 61) t := by
  induction k with
  | zero => simp
  | succ n ih =>
    rw [List.replicate_succ, List.cons_append, List.dropWhile_cons_of_pos]
    · exact ih
    · simp

/-- Stripping the trailing `'='` padding recovers the encoded characters. -/
theorem strip_padding (A : List Nat) (k : Nat) (hA : ∀ c ∈ A, c ≠ 61) :
    ((A ++ List.replicate k 61).reverse.dropWhile (fun c => c == 61)).reverse
      = A := by
  rw [List.reverse_append, List.reverse_replicate, dropWhile_61_replicate]
  cases hrev : A.reverse with
  | nil =>
    have : A = [] := by simpa using congrArg List.reverse hrev
    simp [this]
  | cons h t =>
    have hmem : h ∈ A := by
      have : h ∈ A.reverse := by rw [hrev]; simp
      simpa using this
    rw [List.dropWhile_cons_of_neg]
    · rw [← hrev]
      simp
    · simpa using hA h hmem

theorem map_val_char (A : List Nat) (hA : ∀ v ∈ A, v < 64) :
    (A.map b64char).map b64val = A := by
  induction A with
  | nil => rfl
  | cons v t ih =>
    simp only [List.map_cons, List.cons.injEq]
    constructor
    · exact b64val_b64char v (hA v (by simp))
    · exact ih (fun w hw => hA w (by simp [hw]))

/-- Claim C2: encoding any byte string with `rn_buffer_b64encode` into an
initially empty destination buffer produces a valid base64 encoding: applying
a standard base64 decode to the destination's contents yields exactly the
source bytes, for all byte strings including the empty one. -/
theorem claim_C2_b64_roundtrip (dst src : rn_buffer_t)
    (hdst : dst.data = []) (hsrc : ∀ b ∈ src.data, b < 256) :
    b64decode (rn_buffer_b64encode dst src).data = src.data := by
  have hne : ∀ c ∈ (b64groups src.data).map b64char, c ≠ 61 := by
    intro c hc
    simp only [List.mem_map] at hc
    obtain ⟨v, _, rfl⟩ := hc
    exact b64char_ne_61 v
  unfold rn_buffer_b64encode b64decode
  rw [hdst]
  simp only [List.nil_append]
  rw [encode_loop_chars0 src.data hsrc]
  rw [padEq_spec]
  rw [strip_padding _ _ hne]
  rw [map_val_char _ (b64groups_lt src.data hsrc)]
  exact b64decodeVals_groups src.data hsrc

theorem claim_C2_b64_roundtrip_witness :
    b64decode (rn_buffer_b64encode ⟨1, [], 0⟩ ⟨2, [104, 105], 2⟩).data
      = [104, 105] :=
  claim_C2_b64_roundtrip ⟨1, [], 0⟩ ⟨2, [104, 105], 2⟩ rfl (by decide)
